import Mathlib

/-!
# Verification of the AI content-generator pipeline

Shallow embedding of the Go sources of the repository (news aggregation,
relevance ranking, the generate–validate–charge orchestration in
`internal/bot/bot.go`, and the quota ledger in `internal/storage/storage.go`),
together with theorems settling the specification claims.

Modelling conventions:
* Go `string` is modelled by Lean `String`; substring search, lower-casing,
  trimming and field splitting are re-implemented below following the Go
  library semantics (lower-casing covers the ASCII and Cyrillic ranges that
  appear in the program's data).
* Go `int`/`int64` are modelled by `Int`.
* Relevance scores (`float64` values that are sums of multiples of 0.05,
  capped at 1.0) are modelled as `Nat` scaled by 100; thresholds 0.6 / 0.4
  become 60 / 40.  All concrete inputs used in counterexamples are chosen
  away from representation-sensitive boundaries.
* `time.Time` is modelled as an `Int` Unix-seconds value; the hour thresholds
  6h / 12h / 24h of the freshness heuristic become 21600 / 43200 / 86400
  seconds.
* Collaborator calls (news sources, the channel analyzer, the GPT client,
  message transport) are modelled as oracle values inside an environment
  record; file persistence (`save`) is modelled as always succeeding, per the
  spec's exclusion of on-disk persistence.
* Go map iteration over the category table is randomized per call and the
  scans over it break ties first-wins; the functions that iterate it
  therefore take the iteration order as an explicit argument (the `...In`
  forms), and the unparameterized wrappers fix the textual order of the map
  literal — one of the orders Go may produce.
-/

/-! ## Go string primitives -/

/-- Lower-casing of a single character, covering the ASCII `A`–`Z` and
Cyrillic `А`–`Я`, `Ё` ranges used by the program (Go `strings.ToLower`). -/
def goToLowerChar (c : Char) : Char :=
  if 65 ≤ c.toNat ∧ c.toNat ≤ 90 then Char.ofNat (c.toNat + 32)
  else if 0x410 ≤ c.toNat ∧ c.toNat ≤ 0x42F then Char.ofNat (c.toNat + 32)
  else if c.toNat = 0x401 then Char.ofNat 0x451
  else c

/-- Go `strings.ToLower`. -/
def goToLower (s : String) : String :=
  ⟨s.data.map goToLowerChar⟩

/-- Whether the second list is an initial segment of the first. -/
def startsWithL : List Char → List Char → Bool
  | _, [] => true
  | [], _ :: _ => false
  | a :: as, b :: bs => a == b && startsWithL as bs

/-- Substring occurrence on character lists (Go `strings.Contains`);
the empty needle occurs in every haystack, as in Go. -/
def containsL : List Char → List Char → Bool
  | hay, nee =>
    startsWithL hay nee ||
      (match hay with
       | [] => false
       | _ :: t => containsL t nee)

/-- Go `strings.Contains`. -/
def goContains (s sub : String) : Bool := containsL s.data sub.data

/-- Go `strings.HasPrefix`. -/
def goHasStart (s pre : String) : Bool := startsWithL s.data pre.data

/-- Go `strings.TrimPrefix`. -/
def goDropStart (s pre : String) : String :=
  if goHasStart s pre then ⟨s.data.drop pre.data.length⟩ else s

/-- Go `unicode.IsSpace` (White_Space property). -/
def isGoSpace (c : Char) : Bool :=
  c == ' ' || c == '\t' || c == '\n' || c == '\x0b' || c == '\x0c' || c == '\r' ||
  c.toNat == 0x85 || c.toNat == 0xA0 || c.toNat == 0x1680 ||
  (0x2000 ≤ c.toNat && c.toNat ≤ 0x200A) ||
  c.toNat == 0x2028 || c.toNat == 0x2029 || c.toNat == 0x202F ||
  c.toNat == 0x205F || c.toNat == 0x3000

/-- Go `strings.TrimSpace`. -/
def goTrimSpace (s : String) : String :=
  ⟨((s.data.dropWhile isGoSpace).reverse.dropWhile isGoSpace).reverse⟩

/-- UTF-8 byte size of one character. -/
def goUtf8Size (c : Char) : Nat :=
  if c.toNat < 0x80 then 1
  else if c.toNat < 0x800 then 2
  else if c.toNat < 0x10000 then 3
  else 4

/-- Go `len` on a string: its UTF-8 byte length. -/
def goLen (s : String) : Nat :=
  s.data.foldl (fun n c => n + goUtf8Size c) 0

/-- Go `strings.Fields`: split around runs of white space. -/
def goFieldsAux : List Char → List Char → List String
  | [], cur => if cur.isEmpty then [] else [⟨cur.reverse⟩]
  | c :: rest, cur =>
    if isGoSpace c then
      if cur.isEmpty then goFieldsAux rest [] else ⟨cur.reverse⟩ :: goFieldsAux rest []
    else goFieldsAux rest (c :: cur)

/-- Go `strings.Fields`. -/
def goFields (s : String) : List String := goFieldsAux s.data []

/-- Go `strings.Join(xs, " ")`. -/
def goJoinSpace : List String → String
  | [] => ""
  | [s] => s
  | s :: rest => s ++ " " ++ goJoinSpace rest

/-! ## Quota ledger (`internal/storage/storage.go`)

The `Storage` user map is modelled as an association list from user id to
`User`; `save()` (file persistence) is modelled as always succeeding. -/

/-- `storage.User`. -/
structure User where
  userID : Int := 0
  username : String := ""
  availableGenerations : Int := 0
  totalGenerations : Int := 0
  isPremium : Bool := false
deriving DecidableEq

/-- The in-memory user map of `storage.Storage`. -/
def StorageState := List (Int × User)

instance : DecidableEq StorageState := by
  unfold StorageState
  infer_instance

/-- Association-list lookup (Go map read `s.users[userID]`). -/
def lookupA : StorageState → Int → Option User
  | [], _ => none
  | (k, u) :: rest, id => if k = id then some u else lookupA rest id

/-- Association-list store (Go map write `s.users[userID] = user`). -/
def setA : StorageState → Int → User → StorageState
  | [], id, u => [(id, u)]
  | (k, v) :: rest, id, u =>
    if k = id then (k, u) :: rest else (k, v) :: setA rest id u

/-- The zero-history user the storage materialises for an unknown id
(10 free generations). -/
def freshUser (userID : Int) : User :=
  { userID := userID, username := "", availableGenerations := 10,
    totalGenerations := 0, isPremium := false }

/-- `Storage.GetUser`: returns a (field-by-field copy of the) stored user,
or a fresh default user (10 free generations) without persisting anything;
the copy is invisible in the model thanks to structure eta. -/
def GetUser (st : StorageState) (userID : Int) : User :=
  (lookupA st userID).getD (freshUser userID)

/-- `Storage.UseGeneration`: create the user on first sight, refuse when the
balance is non-positive, otherwise decrement the balance and increment the
total counter. -/
def UseGeneration (st : StorageState) (userID : Int) : Bool × StorageState :=
  let user := (lookupA st userID).getD (freshUser userID)
  let st1 := if (lookupA st userID).isSome then st else setA st userID user
  if user.availableGenerations ≤ 0 then (false, st1)
  else
    (true, setA st1 userID
      { user with availableGenerations := user.availableGenerations - 1,
                  totalGenerations := user.totalGenerations + 1 })

/-- `Storage.AddGenerations`: create the user on first sight, add `count`
to the balance, and set the premium flag for purchases of 25 or more. -/
def AddGenerations (st : StorageState) (userID : Int) (count : Int) : StorageState :=
  let user := (lookupA st userID).getD (freshUser userID)
  let st1 := if (lookupA st userID).isSome then st else setA st userID user
  setA st1 userID
    { user with availableGenerations := user.availableGenerations + count,
                isPremium := if 25 ≤ count then true else user.isPremium }

/-- `Storage.UpdateUser`: overwrite the stored record wholesale. -/
def UpdateUser (st : StorageState) (user : User) : StorageState :=
  setA st user.userID user

/-- Effective available balance of a user, via `GetUser` semantics
(an unseen user reads as 10). -/
def balanceOf (st : StorageState) (userID : Int) : Int :=
  (GetUser st userID).availableGenerations

/-- Effective total-used counter of a user, via `GetUser` semantics. -/
def totalOf (st : StorageState) (userID : Int) : Int :=
  (GetUser st userID).totalGenerations

/-! Basic association-list lemmas. -/

theorem lookupA_setA_self (st : StorageState) (id : Int) (u : User) :
    lookupA (setA st id u) id = some u := by
  induction st with
  | nil => simp [setA, lookupA]
  | cons hd tl ih =>
    obtain ⟨k, v⟩ := hd
    by_cases h : k = id
    · simp [setA, lookupA, h]
    · simp [setA, lookupA, h, ih]

theorem lookupA_setA_ne (st : StorageState) (id id' : Int) (u : User)
    (h : id' ≠ id) : lookupA (setA st id u) id' = lookupA st id' := by
  have h' : ¬ id = id' := fun hh => h hh.symm
  induction st with
  | nil => simp [setA, lookupA, h']
  | cons hd tl ih =>
    obtain ⟨k, v⟩ := hd
    by_cases hk : k = id
    · subst hk
      simp [setA, lookupA, h']
    · simp [setA, lookupA, hk, ih]

/-! Behaviour of the ledger operations on the touched user and on others. -/

theorem balanceOf_none (st : StorageState) (id : Int) (h : lookupA st id = none) :
    balanceOf st id = 10 := by
  simp [balanceOf, GetUser, h, freshUser]

theorem balanceOf_some (st : StorageState) (id : Int) (u : User)
    (h : lookupA st id = some u) : balanceOf st id = u.availableGenerations := by
  simp [balanceOf, GetUser, h]

theorem totalOf_none (st : StorageState) (id : Int) (h : lookupA st id = none) :
    totalOf st id = 0 := by
  simp [totalOf, GetUser, h, freshUser]

theorem totalOf_some (st : StorageState) (id : Int) (u : User)
    (h : lookupA st id = some u) : totalOf st id = u.totalGenerations := by
  simp [totalOf, GetUser, h]

theorem balanceOf_of_lookup_eq (st st' : StorageState) (id : Int)
    (h : lookupA st id = lookupA st' id) :
    balanceOf st id = balanceOf st' id ∧ totalOf st id = totalOf st' id := by
  unfold balanceOf totalOf GetUser
  rw [h]
  exact ⟨rfl, rfl⟩

theorem useGen_pos (st : StorageState) (id : Int) (h : 0 < balanceOf st id) :
    (UseGeneration st id).1 = true
    ∧ balanceOf (UseGeneration st id).2 id = balanceOf st id - 1
    ∧ totalOf (UseGeneration st id).2 id = totalOf st id + 1 := by
  cases hl : lookupA st id with
  | none =>
    rw [balanceOf_none st id hl, totalOf_none st id hl]
    refine ⟨?_, ?_, ?_⟩ <;>
      norm_num [UseGeneration, hl, freshUser, balanceOf, totalOf, GetUser, lookupA_setA_self]
  | some u =>
    have hpos : ¬ u.availableGenerations ≤ 0 := by
      rw [balanceOf_some st id u hl] at h
      omega
    rw [balanceOf_some st id u hl, totalOf_some st id u hl]
    refine ⟨?_, ?_, ?_⟩ <;>
      norm_num [UseGeneration, hl, hpos, balanceOf, totalOf, GetUser, lookupA_setA_self]

theorem useGen_nonpos (st : StorageState) (id : Int) (h : balanceOf st id ≤ 0) :
    UseGeneration st id = (false, st) := by
  cases hl : lookupA st id with
  | none =>
    rw [balanceOf_none st id hl] at h
    omega
  | some u =>
    have hb : u.availableGenerations ≤ 0 := by
      rw [balanceOf_some st id u hl] at h
      exact h
    simp [UseGeneration, hl, hb]

theorem lookupA_useGen_ne (st : StorageState) (id id' : Int) (h : id' ≠ id) :
    lookupA (UseGeneration st id).2 id' = lookupA st id' := by
  cases hl : lookupA st id with
  | none =>
    by_cases hb : (freshUser id).availableGenerations ≤ 0
    · simp [UseGeneration, hl, hb, lookupA_setA_ne _ _ _ _ h]
    · simp [UseGeneration, hl, hb, lookupA_setA_ne _ _ _ _ h]
  | some u =>
    by_cases hb : u.availableGenerations ≤ 0
    · simp [UseGeneration, hl, hb]
    · simp [UseGeneration, hl, hb, lookupA_setA_ne _ _ _ _ h]

theorem addGen_self (st : StorageState) (id : Int) (c : Int) :
    balanceOf (AddGenerations st id c) id = balanceOf st id + c
    ∧ totalOf (AddGenerations st id c) id = totalOf st id := by
  cases hl : lookupA st id with
  | none =>
    rw [balanceOf_none st id hl, totalOf_none st id hl]
    constructor <;>
      norm_num [AddGenerations, hl, freshUser, balanceOf, totalOf, GetUser, lookupA_setA_self]
  | some u =>
    rw [balanceOf_some st id u hl, totalOf_some st id u hl]
    constructor <;>
      norm_num [AddGenerations, hl, balanceOf, totalOf, GetUser, lookupA_setA_self]

theorem lookupA_addGen_ne (st : StorageState) (id id' : Int) (c : Int) (h : id' ≠ id) :
    lookupA (AddGenerations st id c) id' = lookupA st id' := by
  cases hl : lookupA st id with
  | none => simp [AddGenerations, hl, lookupA_setA_ne _ _ _ _ h]
  | some u => simp [AddGenerations, hl, lookupA_setA_ne _ _ _ _ h]

/-! ## C4 — the debit operation -/

/-- C4: `Storage.UseGeneration` returns ok exactly when the effective balance
is positive; a positive balance is decremented by one (with the total counter
incremented); a non-positive balance is reported as failure and left
unchanged. -/
theorem UseGeneration_debits_iff_positive (st : StorageState) (id : Int) :
    ((UseGeneration st id).1 = true ↔ 0 < balanceOf st id)
    ∧ (0 < balanceOf st id →
        balanceOf (UseGeneration st id).2 id = balanceOf st id - 1
        ∧ totalOf (UseGeneration st id).2 id = totalOf st id + 1)
    ∧ (balanceOf st id ≤ 0 →
        (UseGeneration st id).1 = false
        ∧ balanceOf (UseGeneration st id).2 id = balanceOf st id) := by
  refine ⟨⟨fun h => ?_, fun h => (useGen_pos st id h).1⟩,
          fun h => (useGen_pos st id h).2,
          fun h => ?_⟩
  · by_contra hneg
    push_neg at hneg
    have := useGen_nonpos st id hneg
    rw [this] at h
    simp at h
  · have := useGen_nonpos st id h
    rw [this]
    exact ⟨rfl, rfl⟩

/-- Witness for C4 at a concrete state: an unknown user has balance 10, and
the debit takes it to 9. -/
theorem UseGeneration_debits_iff_positive_witness :
    balanceOf (UseGeneration ([] : StorageState) 1).2 1 = balanceOf ([] : StorageState) 1 - 1 :=
  ((UseGeneration_debits_iff_positive ([] : StorageState) 1).2.1 (by decide)).1

/-! ## C10 — implicit free allowance -/

/-- C10: an id never seen by the storage reads as a user with 10 available
generations and 0 used, and the first debit for that id succeeds, creating the
user and leaving balance 9 with total 1. -/
theorem getUser_fresh_allowance (st : StorageState) (id : Int)
    (h : lookupA st id = none) :
    (GetUser st id).availableGenerations = 10
    ∧ (GetUser st id).totalGenerations = 0
    ∧ (UseGeneration st id).1 = true
    ∧ balanceOf (UseGeneration st id).2 id = 9
    ∧ totalOf (UseGeneration st id).2 id = 1 := by
  have hb : balanceOf st id = 10 := balanceOf_none st id h
  have ht : totalOf st id = 0 := totalOf_none st id h
  have hp := useGen_pos st id (by rw [hb]; norm_num)
  refine ⟨by simp [GetUser, h, freshUser], by simp [GetUser, h, freshUser], hp.1, ?_, ?_⟩
  · rw [hp.2.1, hb]; norm_num
  · rw [hp.2.2, ht]; norm_num

/-- Witness for C10 on the empty storage. -/
theorem getUser_fresh_allowance_witness :
    balanceOf (UseGeneration ([] : StorageState) 42).2 42 = 9 :=
  (getUser_fresh_allowance ([] : StorageState) 42 rfl).2.2.2.1

/-! ## C5 — ledger sequences -/

/-- One ledger operation of the storage interface. -/
inductive StorageOp where
  | useGen (userID : Int)
  | addGen (userID : Int) (count : Int)
  | updateU (user : User)
deriving DecidableEq

/-- Apply one operation to the user map (the boolean result of
`UseGeneration` is discarded). -/
def applyStorageOp (st : StorageState) : StorageOp → StorageState
  | .useGen id => (UseGeneration st id).2
  | .addGen id c => AddGenerations st id c
  | .updateU u => UpdateUser st u

/-- Run a sequence of ledger operations. -/
def runStorageOps (st : StorageState) : List StorageOp → StorageState
  | [] => st
  | op :: rest => runStorageOps (applyStorageOp st op) rest

/-- Non-negative inputs, as in the claim: `AddGenerations` with a
non-negative count, `UpdateUser` with non-negative counters. -/
def NonNegInput : StorageOp → Prop
  | .useGen _ => True
  | .addGen _ c => 0 ≤ c
  | .updateU u => 0 ≤ u.availableGenerations ∧ 0 ≤ u.totalGenerations

instance (op : StorageOp) : Decidable (NonNegInput op) := by
  cases op <;> unfold NonNegInput <;> infer_instance

/-- Whether an operation is an `UpdateUser`. -/
def isUpdateOp : StorageOp → Bool
  | .updateU _ => true
  | _ => false

/-- All effective balances of a state are non-negative. -/
def BalancesNonNeg (st : StorageState) : Prop := ∀ id, 0 ≤ balanceOf st id

theorem balances_step (st : StorageState) (op : StorageOp)
    (hop : NonNegInput op) (hst : BalancesNonNeg st) :
    BalancesNonNeg (applyStorageOp st op) := by
  intro id'
  cases op with
  | useGen id =>
    by_cases hid : id' = id
    · subst hid
      by_cases hpos : 0 < balanceOf st id'
      · have := (useGen_pos st id' hpos).2.1
        simp only [applyStorageOp]
        omega
      · push_neg at hpos
        simp only [applyStorageOp, useGen_nonpos st id' hpos]
        exact hst id'
    · have := (balanceOf_of_lookup_eq _ st id' (lookupA_useGen_ne st id id' hid)).1
      simp only [applyStorageOp]
      rw [this]
      exact hst id'
  | addGen id c =>
    by_cases hid : id' = id
    · subst hid
      have := (addGen_self st id' c).1
      simp only [applyStorageOp]
      have hc : 0 ≤ c := hop
      have := hst id'
      omega
    · have := (balanceOf_of_lookup_eq _ st id' (lookupA_addGen_ne st id id' c hid)).1
      simp only [applyStorageOp]
      rw [this]
      exact hst id'
  | updateU u =>
    by_cases hid : id' = u.userID
    · subst hid
      simp only [applyStorageOp, UpdateUser]
      unfold balanceOf GetUser
      rw [lookupA_setA_self]
      exact hop.1
    · have hlook : lookupA (UpdateUser st u) id' = lookupA st id' :=
        lookupA_setA_ne st u.userID id' u hid
      have := (balanceOf_of_lookup_eq _ st id' hlook).1
      simp only [applyStorageOp]
      rw [this]
      exact hst id'

theorem total_step (st : StorageState) (op : StorageOp)
    (hop : isUpdateOp op = false) (id' : Int) :
    totalOf st id' ≤ totalOf (applyStorageOp st op) id' := by
  cases op with
  | useGen id =>
    by_cases hid : id' = id
    · subst hid
      by_cases hpos : 0 < balanceOf st id'
      · have := (useGen_pos st id' hpos).2.2
        simp only [applyStorageOp]
        omega
      · push_neg at hpos
        simp only [applyStorageOp, useGen_nonpos st id' hpos]
        exact le_refl _
    · have := (balanceOf_of_lookup_eq _ st id' (lookupA_useGen_ne st id id' hid)).2
      simp only [applyStorageOp]
      omega
  | addGen id c =>
    by_cases hid : id' = id
    · subst hid
      have := (addGen_self st id' c).2
      simp only [applyStorageOp]
      omega
    · have := (balanceOf_of_lookup_eq _ st id' (lookupA_addGen_ne st id id' c hid)).2
      simp only [applyStorageOp]
      omega
  | updateU u => simp [isUpdateOp] at hop

theorem balances_run (ops : List StorageOp) :
    ∀ st : StorageState, (∀ op ∈ ops, NonNegInput op) → BalancesNonNeg st →
      BalancesNonNeg (runStorageOps st ops) := by
  induction ops with
  | nil => intro st _ hst; exact hst
  | cons op rest ih =>
    intro st hops hst
    exact ih (applyStorageOp st op)
      (fun o ho => hops o (List.mem_cons_of_mem _ ho))
      (balances_step st op (hops op (List.mem_cons_self _ _)) hst)

theorem total_run (ops : List StorageOp) :
    ∀ (st : StorageState) (id : Int), (∀ op ∈ ops, isUpdateOp op = false) →
      totalOf st id ≤ totalOf (runStorageOps st ops) id := by
  induction ops with
  | nil => intro st id _; exact le_refl _
  | cons op rest ih =>
    intro st id hops
    calc totalOf st id
        ≤ totalOf (applyStorageOp st op) id :=
          total_step st op (hops op (List.mem_cons_self _ _)) id
      _ ≤ totalOf (runStorageOps (applyStorageOp st op) rest) id :=
          ih (applyStorageOp st op) id (fun o ho => hops o (List.mem_cons_of_mem _ ho))

/-- A non-negative `UpdateUser` payload that rewinds the total counter. -/
def resetUser : User :=
  { userID := 7, username := "", availableGenerations := 10,
    totalGenerations := 0, isPremium := false }

/-- C5 counterexample: starting from the empty storage, `UseGeneration 7`
raises user 7's total counter to 1, and a subsequent `UpdateUser` with
non-negative fields rewrites it to 0 — the `TotalGenerations` counter
decreases under a sequence of the claimed operations. -/
theorem storage_total_can_decrease :
    NonNegInput (StorageOp.updateU resetUser)
    ∧ totalOf (runStorageOps ([] : StorageState) [StorageOp.useGen 7]) 7 = 1
    ∧ totalOf (runStorageOps ([] : StorageState)
        [StorageOp.useGen 7, StorageOp.updateU resetUser]) 7 = 0 := by
  refine ⟨⟨by decide, by decide⟩, by decide, by decide⟩

/-- C5 amended: under any sequence of `UseGeneration`, `AddGenerations` with
non-negative count and `UpdateUser` with non-negative fields, every effective
balance stays non-negative; and the total counter is non-decreasing as long
as the sequence contains no `UpdateUser` (which overwrites the record
wholesale and can lower it). -/
theorem storage_invariants (st : StorageState) (ops : List StorageOp) :
    ((∀ op ∈ ops, NonNegInput op) → BalancesNonNeg st →
      BalancesNonNeg (runStorageOps st ops))
    ∧ ((∀ op ∈ ops, isUpdateOp op = false) →
      ∀ id, totalOf st id ≤ totalOf (runStorageOps st ops) id) :=
  ⟨fun hops hst => balances_run ops st hops hst,
   fun hops id => total_run ops st id hops⟩

/-- Witness for the amended C5 on a concrete two-operation run. -/
theorem storage_invariants_witness :
    0 ≤ balanceOf (runStorageOps ([] : StorageState)
          [StorageOp.useGen 3, StorageOp.addGen 3 5]) 3
    ∧ totalOf ([] : StorageState) 3 ≤
        totalOf (runStorageOps ([] : StorageState)
          [StorageOp.useGen 3, StorageOp.addGen 3 5]) 3 :=
  ⟨(storage_invariants ([] : StorageState) _).1 (by decide)
      (fun id => by unfold balanceOf GetUser lookupA; norm_num [freshUser]) 3,
   (storage_invariants ([] : StorageState) _).2 (by decide) 3⟩

/-! ## News data model (`internal/news/types.go`, `internal/categories`) -/

/-- `news.Article`; `Relevance float64` (0–1) is modelled as `Nat` scaled
by 100, `PublishedAt time.Time` as Unix seconds. -/
structure Article where
  title : String := ""
  url : String := ""
  summary : String := ""
  content : String := ""
  publishedAt : Int := 0
  source : String := ""
  category : String := ""
  relevance : Nat := 0
deriving DecidableEq

/-- `categories.Category`. -/
structure Category where
  name : String := ""
  keywords : List String := []
  subtopics : List String := []
  sources : List String := []
deriving DecidableEq

/-- `categories.GetCategories()`; the Go map is modelled as an association
list in the textual order of the map literal.  Functions that range over the
map take the iteration order as an explicit argument, since Go randomizes
it per call. -/
def categoriesList : List (String × Category) :=
  [("IT и технологии",
    { name := "IT и технологии",
      keywords :=
        ["программирование", "разработка", "software", "код", "алгоритм",
         "искусственный интеллект", "AI", "машинное обучение", "нейросеть",
         "кибербезопасность", "хакер", "вирус", "защита",
         "базы данных", "SQL", "NoSQL", "облако", "cloud",
         "мобильная разработка", "iOS", "Android", "React Native", "Flutter",
         "веб-разработка", "frontend", "backend", "JavaScript", "TypeScript",
         "DevOps", "контейнеризация", "Docker", "Kubernetes",
         "блокчейн", "криптовалюта", "NFT", "Web3",
         "игры", "геймдев", "Unity", "Unreal Engine"],
      subtopics :=
        ["Веб-разработка", "Мобильная разработка", "Искусственный интеллект",
         "Кибербезопасность", "Облачные технологии", "DevOps",
         "Блокчейн и крипто", "Геймдев", "Data Science", "Интернет вещей"],
      sources := ["Хабрахабр", "VC.ru", "CNews", "3DNews", "IXBT"] }),
   ("Бизнес и стартапы",
    { name := "Бизнес и стартапы",
      keywords :=
        ["стартап", "бизнес", "предпринимательство", "инвестиции", "венчур",
         "финансы", "экономика", "рынок", "акции", "трейдинг",
         "маркетинг", "реклама", "SEO", "SMM", "контент-маркетинг",
         "управление", "менеджмент", "лидерство", "команда", "HR",
         "продажи", "клиенты", "CRM", "бизнес-модель", "монетизация",
         "фриланс", "удаленная работа", "карьера", "трудоустройство"],
      subtopics :=
        ["Стартапы и инвестиции", "Финансы и трейдинг", "Маркетинг и реклама",
         "Управление и менеджмент", "Продажи и клиенты", "Карьера и работа"],
      sources := ["РБК", "Коммерсант", "Forbes", "Ведомости", "VC.ru"] }),
   ("Наука и образование",
    { name := "Наука и образование",
      keywords :=
        ["наука", "исследование", "открытие", "ученый", "лаборатория",
         "образование", "обучение", "курсы", "университет", "студент",
         "математика", "физика", "химия", "биология", "медицина",
         "технологии", "инновации", "изобретение", "патент",
         "космос", "астрономия", "NASA", "космонавтика",
         "психология", "социология", "исследование"],
      subtopics :=
        ["Научные открытия", "Образовательные технологии", "Медицина и здоровье",
         "Космос и астрономия", "Психология и социология"],
      sources := ["N+1", "Индикатор", "Элементы", "Биомолекула"] }),
   ("Гаджеты и техника",
    { name := "Гаджеты и техника",
      keywords :=
        ["смартфон", "телефон", "iPhone", "Samsung", "Xiaomi",
         "ноутбук", "компьютер", "процессор", "видеокарта", "память",
         "планшет", "умные часы", "фитнес-браслет", "гаджет", "девайс",
         "игры", "консоль", "PlayStation", "Xbox", "Nintendo",
         "автомобили", "тесла", "электромобиль", "беспилотник",
         "умный дом", "IoT", "робот", "дрон"],
      subtopics :=
        ["Смартфоны и планшеты", "Ноутбуки и компьютеры", "Игровые консоли",
         "Автомобили и транспорт", "Умный дом и гаджеты"],
      sources := ["IXBT", "3DNews", "Ferra", "CNews"] })]

/-- Number of keywords of a list occurring (lower-cased) in a text. -/
def countMatches (text : String) (kws : List String) : Nat :=
  (kws.filter (fun k => goContains text (goToLower k))).length

/-- `categories.DetectCategory`, with the Go map's iteration order made an
explicit `order` argument: the first category of the order with the strictly
largest number of keyword matches, defaulting to `Общее` — the strict `>`
update makes ties first-wins, so tie inputs are order-sensitive. -/
def DetectCategoryIn (order : List (String × Category)) (text : String) : String :=
  let textLower := goToLower text
  (order.foldl
    (fun best entry =>
      let m := countMatches textLower entry.2.keywords
      if best.2 < m then (entry.1, m) else best)
    ("Общее", 0)).1

/-- `categories.DetectCategory` at the textual order of the map literal. -/
def DetectCategory (text : String) : String :=
  DetectCategoryIn categoriesList text

/-- `categories.GetCategory`. -/
def GetCategory (name : String) : Option Category :=
  (categoriesList.find? (fun e => e.1 == name)).map (fun e => e.2)

/-! ## Aggregation (`internal/news/aggregator.go`) -/

/-- The military-topic blocklist of `FilterOutMilitaryTopics`. -/
def militaryKeywords : List String :=
  ["война", "воен", "боев", "оруж", "атака", "конфликт", "наступление",
   "оборона", "спецоперация", "ВСУ", "ВС РФ", "минобороны", "погиб",
   "ранен", "обстрел", "взрыв", "снаряд", "танк", "артиллерия",
   "авиация", "фронт", "пленных", "удар", "контрнаступление", "ЗСУ",
   "боеприпас", "мина", "ракета", "дрон", "БПЛА", "кадыров", "пригожин",
   "чвк", "мобилизация", "призыв", "окоп", "позиция", "штурм"]

/-- `containsMilitaryTopics`: case-insensitive substring match of any
blocklist keyword against title+summary. -/
def containsMilitaryTopics (article : Article) (keywords : List String) : Bool :=
  let text := goToLower (article.title ++ " " ++ article.summary)
  keywords.any (fun k => goContains text (goToLower k))

/-- `FilterOutMilitaryTopics`. -/
def FilterOutMilitaryTopics (articles : List Article) : List Article :=
  articles.filter (fun a => !containsMilitaryTopics a militaryKeywords)

/-- The source loop of `FetchAllArticles`: append each succeeding source's
batch, skip failing sources. -/
def collectArticles : List (Except Unit (List Article)) → List Article → List Article
  | [], acc => acc
  | Except.error _ :: rest, acc => collectArticles rest acc
  | Except.ok arts :: rest, acc => collectArticles rest (acc ++ arts)

/-- `NewsAggregator.FetchAllArticles`, with each configured source's
`FetchArticles()` outcome supplied as an oracle value: collect the batches of
the succeeding sources, apply the military-topic filter, and return a `nil`
error (modelled as `none`) unconditionally. -/
def FetchAllArticles (sources : List (Except Unit (List Article))) :
    List Article × Option Unit :=
  (FilterOutMilitaryTopics (collectArticles sources []), none)

/-- Plain concatenation of the succeeding sources' articles, following the
claim's words (for comparison with `FetchAllArticles`). -/
def concatOkArticles : List (Except Unit (List Article)) → List Article
  | [] => []
  | Except.error _ :: rest => concatOkArticles rest
  | Except.ok arts :: rest => arts ++ concatOkArticles rest

/-! ## Ranking (`internal/news/aggregator.go`, first snapshot) -/

/-- `analyzer.GPTAnalysis`, restricted to the fields read by the ranking
path. -/
structure GPTAnalysis where
  mainTopic : String := ""
  subtopics : List String := []
  keywords : List String := []
  contentAngle : String := ""
deriving DecidableEq

/-- `analyzer.ChannelAnalysis`: the ranking path only reads the
`GPTAnalysis` pointer, whose nil-ness is an `Option`. -/
structure ChannelAnalysis where
  gptAnalysis : Option GPTAnalysis := none
deriving DecidableEq

/-- Score of one category entry in `determineChannelCategory`:
+10 for the category name, +2 per keyword, +3 per subtopic. -/
def categoryScore (text : String) (name : String) (cat : Category) : Nat :=
  (if goContains text (goToLower name) then 10 else 0)
  + 2 * countMatches text cat.keywords
  + 3 * countMatches text cat.subtopics

/-- `determineChannelCategory`, with the Go map's iteration order made an
explicit `order` argument; like `DetectCategoryIn`, ties between categories
are first-wins and hence order-sensitive. -/
def determineChannelCategoryIn (order : List (String × Category))
    (analysis : ChannelAnalysis) : String :=
  match analysis.gptAnalysis with
  | none => "Общее"
  | some g =>
    let text := goToLower (g.mainTopic ++ " " ++ goJoinSpace g.subtopics
      ++ " " ++ goJoinSpace g.keywords)
    (order.foldl
      (fun best entry =>
        let score := categoryScore text entry.1 entry.2
        if best.2 < score then (entry.1, score) else best)
      ("Общее", 0)).1

/-- `determineChannelCategory` at the textual order of the map literal. -/
def determineChannelCategory (analysis : ChannelAnalysis) : String :=
  determineChannelCategoryIn categoriesList analysis

/-- The freshness bonus of `CalculatePreciseRelevance`
(`time.Since(...).Hours()` thresholds 6h/12h/24h in seconds, score scaled
by 100). -/
def freshnessBonus (now pub : Int) : Nat :=
  if now - pub < 21600 then 20
  else if now - pub < 43200 then 15
  else if now - pub < 86400 then 10
  else 0

/-- The freshness band an article falls into at time `now` (0 = under 6h,
1 = under 12h, 2 = under 24h, 3 = older). -/
def freshBand (now pub : Int) : Nat :=
  if now - pub < 21600 then 0
  else if now - pub < 43200 then 1
  else if now - pub < 86400 then 2
  else 3

/-- `CalculatePreciseRelevance` (scores scaled by 100; the wall clock read by
`time.Since` is the explicit `now` argument, and the category table's
iteration order for the `DetectCategory` call is the explicit `order`
argument; `GetCategory` is a keyed map lookup, hence order-free). -/
def CalculatePreciseRelevanceIn (order : List (String × Category))
    (article : Article) (analysis : ChannelAnalysis)
    (channelCategory : String) (now : Int) : Nat :=
  match analysis.gptAnalysis with
  | none => 30
  | some g =>
    let text := goToLower (article.title ++ " " ++ article.summary)
    let articleCategory := DetectCategoryIn order text
    let catBonus := if articleCategory == channelCategory then 50 else 0
    let kwBonus := 15 * countMatches text g.keywords
    let mainBonus := if goContains text (goToLower g.mainTopic) then 30 else 0
    let subBonus := 10 * countMatches text g.subtopics
    let fresh := freshnessBonus now article.publishedAt
    let srcBonus := match GetCategory channelCategory with
      | some cat => if cat.sources.contains article.source then 10 else 0
      | none => 0
    let relevance := catBonus + kwBonus + mainBonus + subBonus + fresh + srcBonus
    if 100 < relevance then 100 else relevance

/-- `CalculatePreciseRelevance` at the textual order of the map literal. -/
def CalculatePreciseRelevance (article : Article) (analysis : ChannelAnalysis)
    (channelCategory : String) (now : Int) : Nat :=
  CalculatePreciseRelevanceIn categoriesList article analysis channelCategory now

/-- Insertion step of the relevance sort (`sort.Slice` comparator
`Relevance > Relevance`; the Go sort is unstable but deterministic — the
model fixes one deterministic order, which no settled claim depends on). -/
def insertByRel (a : Article) : List Article → List Article
  | [] => [a]
  | b :: r => if b.relevance < a.relevance then a :: b :: r else b :: insertByRel a r

/-- Sort by strictly decreasing relevance. -/
def sortByRel : List Article → List Article
  | [] => []
  | a :: r => insertByRel a (sortByRel r)

/-- First filtering loop of `FindRelevantArticles`: keep articles with
relevance above 0.6, stopping once `2*maxArticles` are kept (the Go loop
checks the bound after a possible append). -/
def takeRel (arts : List Article) (cap : Nat) (acc : List Article) : List Article :=
  match arts with
  | [] => acc
  | a :: rest =>
    let acc2 := if 60 < a.relevance then acc ++ [a] else acc
    if cap ≤ acc2.length then acc2 else takeRel rest cap acc2

/-- Second loop of `FindRelevantArticles`: backfill with articles of
relevance above 0.4, bounded by `2*maxArticles`, skipping URLs already
chosen. -/
def fillRelevant (arts : List Article) (cap : Nat) (acc : List Article) : List Article :=
  match arts with
  | [] => acc
  | a :: rest =>
    if 40 < a.relevance ∧ acc.length < cap then
      if acc.any (fun b => b.url == a.url) then fillRelevant rest cap acc
      else fillRelevant rest cap (acc ++ [a])
    else fillRelevant rest cap acc

/-- Diversity pass of `selectDiverseArticles`: walk the list taking at most
one article per source until `maxArticles` are chosen. -/
def diversePass (arts : List Article) (maxArticles : Nat) (res : List Article)
    (used : List String) : List Article :=
  match arts with
  | [] => res
  | a :: rest =>
    if maxArticles ≤ res.length then res
    else if used.contains a.source then diversePass rest maxArticles res used
    else diversePass rest maxArticles (res ++ [a]) (a.source :: used)

/-- Backfill pass of `selectDiverseArticles`: top up with highest-ranked
remaining articles regardless of source, skipping URLs already chosen. -/
def fillPass (arts : List Article) (maxArticles : Nat) (res : List Article) : List Article :=
  match arts with
  | [] => res
  | a :: rest =>
    if maxArticles ≤ res.length then res
    else if res.any (fun b => b.url == a.url) then fillPass rest maxArticles res
    else fillPass rest maxArticles (res ++ [a])

/-- `selectDiverseArticles`. -/
def selectDiverseArticles (articles : List Article) (maxArticles : Nat) : List Article :=
  let result := diversePass articles maxArticles [] []
  if result.length < maxArticles then fillPass articles maxArticles result else result

/-- The body of `FindRelevantArticles`, over an explicit category-table
iteration order: returns both the scored, sorted article list (the state of
the caller's slice after the in-place `sort.Slice`) and the selected result.
-/
def findRelevantCoreIn (order : List (String × Category)) (articles : List Article)
    (analysis : ChannelAnalysis) (maxArticles : Nat) (now : Int) :
    List Article × List Article :=
  if articles.isEmpty then ([], [])
  else
    let channelCategory := determineChannelCategoryIn order analysis
    let scored := articles.map
      (fun a => { a with relevance :=
        CalculatePreciseRelevanceIn order a analysis channelCategory now })
    let sorted := sortByRel scored
    let rel1 := takeRel sorted (2 * maxArticles) []
    let relevantArticles :=
      if rel1.length < maxArticles then fillRelevant sorted (2 * maxArticles) rel1 else rel1
    (sorted, selectDiverseArticles relevantArticles maxArticles)

/-- The body of `FindRelevantArticles` at the textual order of the map
literal. -/
def findRelevantCore (articles : List Article) (analysis : ChannelAnalysis)
    (maxArticles : Nat) (now : Int) : List Article × List Article :=
  findRelevantCoreIn categoriesList articles analysis maxArticles now

/-- `FindRelevantArticles` (its return value), over an explicit
category-table iteration order. -/
def FindRelevantArticlesIn (order : List (String × Category))
    (articles : List Article) (analysis : ChannelAnalysis)
    (maxArticles : Nat) (now : Int) : List Article :=
  (findRelevantCoreIn order articles analysis maxArticles now).2

/-- `FindRelevantArticles` at the textual order of the map literal. -/
def FindRelevantArticles (articles : List Article) (analysis : ChannelAnalysis)
    (maxArticles : Nat) (now : Int) : List Article :=
  (findRelevantCore articles analysis maxArticles now).2

/-- `FindRelevantArticlesForKeywords`: build the synthetic analysis (main
topic = the whole keyword string, keywords = its fields) and delegate. -/
def FindRelevantArticlesForKeywords (articles : List Article) (keywords : String)
    (maxArticles : Nat) (now : Int) : List Article :=
  let analysis : ChannelAnalysis :=
    { gptAnalysis := some { mainTopic := keywords, keywords := goFields keywords } }
  FindRelevantArticles articles analysis maxArticles now

/-- The analysis the claim C9 describes: keyword list only, every other
profile field empty (for comparison with `FindRelevantArticlesForKeywords`).
-/
def specKeywordOnlyAnalysis (keywords : String) : ChannelAnalysis :=
  { gptAnalysis := some { mainTopic := "", subtopics := [],
                          keywords := goFields keywords, contentAngle := "" } }

/-! ## C6 — partial-failure tolerance of aggregation -/

theorem collectArticles_eq (sources : List (Except Unit (List Article))) :
    ∀ acc, collectArticles sources acc = acc ++ concatOkArticles sources := by
  induction sources with
  | nil => intro acc; simp [collectArticles, concatOkArticles]
  | cons hd rest ih =>
    intro acc
    cases hd with
    | error e => simp [collectArticles, concatOkArticles, ih]
    | ok arts => simp [collectArticles, concatOkArticles, ih]

/-- Whether a source's `FetchArticles()` outcome is an error. -/
def isErrorResult : Except Unit (List Article) → Bool
  | .error _ => true
  | .ok _ => false

theorem concatOk_of_all_errors (sources : List (Except Unit (List Article)))
    (h : ∀ r ∈ sources, isErrorResult r = true) : concatOkArticles sources = [] := by
  induction sources with
  | nil => rfl
  | cons hd rest ih =>
    cases hd with
    | error e =>
      simp only [concatOkArticles]
      exact ih (fun r hr => h r (List.mem_cons_of_mem _ hr))
    | ok arts =>
      have := h (Except.ok arts) (List.mem_cons_self _ _)
      simp [isErrorResult] at this

/-- An article whose title triggers the content-policy filter. -/
def warArticle : Article := { title := "Хроника: война", url := "w1", source := "S1" }

/-- C6 counterexample: with a single succeeding source whose article matches
the military blocklist, `FetchAllArticles` does not return the concatenation
of the succeeding sources' articles — the unconditional content-policy filter
drops the article. -/
theorem fetchAll_not_plain_concat :
    (FetchAllArticles [Except.ok [warArticle]]).1 = []
    ∧ concatOkArticles [Except.ok [warArticle]] = [warArticle]
    ∧ (FetchAllArticles [Except.ok [warArticle]]).1
        ≠ concatOkArticles [Except.ok [warArticle]] := by
  refine ⟨by decide, by decide, by decide⟩

/-- C6 amended: `FetchAllArticles` returns the military-topic-filtered
concatenation of the succeeding sources' batches, always with a `nil` error;
in particular when every source fails it returns the empty list and a `nil`
error. -/
theorem fetchAll_partial_failure (sources : List (Except Unit (List Article))) :
    FetchAllArticles sources = (FilterOutMilitaryTopics (concatOkArticles sources), none)
    ∧ ((∀ r ∈ sources, isErrorResult r = true) → FetchAllArticles sources = ([], none)) := by
  constructor
  · unfold FetchAllArticles
    rw [collectArticles_eq sources []]
    rfl
  · intro h
    unfold FetchAllArticles
    rw [collectArticles_eq sources [], concatOk_of_all_errors sources h]
    rfl

/-- Witness for the amended C6: two failing sources yield the empty result
and no error. -/
theorem fetchAll_partial_failure_witness :
    FetchAllArticles [Except.error (), Except.error ()] = ([], none) :=
  (fetchAll_partial_failure [Except.error (), Except.error ()]).2 (by decide)

/-! ## C7 — diversity guarantee of selection -/

theorem containsStr_iff (l : List String) (s : String) : l.contains s = true ↔ s ∈ l := by
  simp

/-- How many articles the diversity pass would still accept with an
unbounded budget: one per source not yet used. -/
def numNewSources : List Article → List String → Nat
  | [], _ => 0
  | a :: rest, used =>
    if used.contains a.source then numNewSources rest used
    else numNewSources rest (a.source :: used) + 1

theorem numNew_card (arts : List Article) :
    ∀ used : List String,
      numNewSources arts used
        = (((arts.map (fun a => a.source)).toFinset) \ used.toFinset).card := by
  induction arts with
  | nil => intro used; simp [numNewSources]
  | cons a rest ih =>
    intro used
    by_cases hc : used.contains a.source
    · have hmem : a.source ∈ used.toFinset := by
        rw [List.mem_toFinset]
        exact (containsStr_iff _ _).mp hc
      simp only [numNewSources, List.map_cons, List.toFinset_cons]
      rw [if_pos hc, Finset.insert_sdiff_of_mem _ hmem]
      exact ih used
    · have hmem : a.source ∉ used.toFinset := by
        rw [List.mem_toFinset]
        intro hm
        exact hc ((containsStr_iff _ _).mpr hm)
      simp only [numNewSources, List.map_cons, List.toFinset_cons]
      rw [if_neg hc, ih (a.source :: used), List.toFinset_cons, Finset.sdiff_insert,
        Finset.insert_sdiff_of_not_mem _ hmem]
      by_cases hx : a.source ∈ (rest.map (fun a => a.source)).toFinset \ used.toFinset
      · rw [Finset.card_insert_of_mem hx]
        exact Finset.card_erase_add_one hx
      · rw [Finset.card_insert_of_not_mem hx, Finset.erase_eq_of_not_mem hx]

theorem diversePass_length (arts : List Article) :
    ∀ (maxArticles : Nat) (res : List Article) (used : List String),
      res.length ≤ maxArticles →
      maxArticles ≤ res.length + numNewSources arts used →
      (diversePass arts maxArticles res used).length = maxArticles := by
  induction arts with
  | nil =>
    intro m res used h1 h2
    simp only [numNewSources] at h2
    simp only [diversePass]
    omega
  | cons a rest ih =>
    intro m res used h1 h2
    by_cases hm : m ≤ res.length
    · simp only [diversePass]
      rw [if_pos hm]
      omega
    · by_cases hc : used.contains a.source
      · simp only [diversePass]
        rw [if_neg hm, if_pos hc]
        apply ih m res used h1
        simp only [numNewSources] at h2
        rw [if_pos hc] at h2
        exact h2
      · simp only [diversePass]
        rw [if_neg hm, if_neg hc]
        apply ih m (res ++ [a]) (a.source :: used)
        · simp only [List.length_append, List.length_singleton]
          omega
        · simp only [numNewSources] at h2
          rw [if_neg hc] at h2
          simp only [List.length_append, List.length_singleton]
          omega

theorem diversePass_nodup (arts : List Article) :
    ∀ (maxArticles : Nat) (res : List Article) (used : List String),
      (∀ b ∈ res, b.source ∈ used) →
      ((res.map (fun a => a.source)).Nodup) →
      ((diversePass arts maxArticles res used).map (fun a => a.source)).Nodup
      ∧ ∀ b ∈ diversePass arts maxArticles res used, b ∈ res ∨ b ∈ arts := by
  induction arts with
  | nil =>
    intro m res used hsrc hnd
    refine ⟨by simpa [diversePass] using hnd, ?_⟩
    intro b hb
    simp only [diversePass] at hb
    exact Or.inl hb
  | cons a rest ih =>
    intro m res used hsrc hnd
    by_cases hm : m ≤ res.length
    · have he : diversePass (a :: rest) m res used = res := by
        simp only [diversePass]
        rw [if_pos hm]
      rw [he]
      exact ⟨hnd, fun b hb => Or.inl hb⟩
    · by_cases hc : used.contains a.source
      · have he : diversePass (a :: rest) m res used = diversePass rest m res used := by
          simp only [diversePass]
          rw [if_neg hm, if_pos hc]
        rw [he]
        have h := ih m res used hsrc hnd
        refine ⟨h.1, ?_⟩
        intro b hb
        rcases h.2 b hb with h1 | h1
        · exact Or.inl h1
        · exact Or.inr (List.mem_cons_of_mem _ h1)
      · have hnotin : a.source ∉ used := fun hmem => hc ((containsStr_iff _ _).mpr hmem)
        have hsrc' : ∀ b ∈ res ++ [a], b.source ∈ a.source :: used := by
          intro b hb
          rcases List.mem_append.mp hb with h' | h'
          · exact List.mem_cons_of_mem _ (hsrc b h')
          · simp only [List.mem_singleton] at h'
            rw [h']
            exact List.mem_cons_self _ _
        have hnd' : ((res ++ [a]).map (fun a => a.source)).Nodup := by
          rw [List.map_append]
          rw [List.nodup_append]
          refine ⟨hnd, by simp, ?_⟩
          intro x hx
          simp only [List.map_cons, List.map_nil, List.mem_singleton]
          intro hxa
          obtain ⟨b, hb, hbs⟩ := List.mem_map.mp hx
          exact hnotin (by rw [← hxa, ← hbs]; exact hsrc b hb)
        have he : diversePass (a :: rest) m res used
            = diversePass rest m (res ++ [a]) (a.source :: used) := by
          simp only [diversePass]
          rw [if_neg hm, if_neg hc]
        rw [he]
        have h := ih m (res ++ [a]) (a.source :: used) hsrc' hnd'
        refine ⟨h.1, ?_⟩
        intro b hb
        rcases h.2 b hb with h' | h'
        · rcases List.mem_append.mp h' with h'' | h''
          · exact Or.inl h''
          · simp only [List.mem_singleton] at h''
            exact Or.inr (by rw [h'']; exact List.mem_cons_self _ _)
        · exact Or.inr (List.mem_cons_of_mem _ h')

theorem fillPass_decomp (arts : List Article) :
    ∀ (maxArticles : Nat) (res : List Article),
      ∃ t, fillPass arts maxArticles res = res ++ t
        ∧ (t.map (fun a => a.url)).Nodup
        ∧ ∀ b ∈ t, b.url ∉ res.map (fun a => a.url) := by
  induction arts with
  | nil => intro m res; exact ⟨[], by simp [fillPass], by simp, by simp⟩
  | cons a rest ih =>
    intro m res
    by_cases hm : m ≤ res.length
    · refine ⟨[], ?_, by simp, by simp⟩
      simp only [fillPass]
      rw [if_pos hm, List.append_nil]
    · by_cases hd : res.any (fun b => b.url == a.url)
      · obtain ⟨t, ht, hnd, hdis⟩ := ih m res
        refine ⟨t, ?_, hnd, hdis⟩
        simp only [fillPass]
        rw [if_neg hm, if_pos hd]
        exact ht
      · obtain ⟨t, ht, hnd, hdis⟩ := ih m (res ++ [a])
        have hau : a.url ∉ res.map (fun b => b.url) := by
          intro hmem
          apply hd
          rw [List.any_eq_true]
          obtain ⟨b, hb, hbu⟩ := List.mem_map.mp hmem
          exact ⟨b, hb, by rw [hbu]; exact beq_self_eq_true _⟩
        refine ⟨a :: t, ?_, ?_, ?_⟩
        · simp only [fillPass]
          rw [if_neg hm, if_neg hd, ht, List.append_assoc]
          rfl
        · simp only [List.map_cons, List.nodup_cons]
          refine ⟨?_, hnd⟩
          intro hmem
          obtain ⟨b, hb, hbu⟩ := List.mem_map.mp hmem
          exact hdis b hb (by rw [List.map_append, hbu]; simp)
        · intro b hb
          rcases List.mem_cons.mp hb with h' | h'
          · rw [h']
            exact hau
          · intro hmem
            exact hdis b h' (by rw [List.map_append]; exact List.mem_append_left _ hmem)

/-- C7: if the input list carries articles of at least `k` distinct sources,
`selectDiverseArticles` returns exactly `k` articles of pairwise distinct
sources, all drawn from the input; and whatever the input, the backfill pass
appends only articles whose URLs are pairwise distinct and distinct from
everything the diversity pass chose. -/
theorem selectDiverse_guarantees (articles : List Article) (k : Nat) :
    (k ≤ ((articles.map (fun a => a.source)).toFinset).card →
      (selectDiverseArticles articles k).length = k
      ∧ ((selectDiverseArticles articles k).map (fun a => a.source)).Nodup
      ∧ ∀ b ∈ selectDiverseArticles articles k, b ∈ articles)
    ∧ (∃ t, selectDiverseArticles articles k = diversePass articles k [] [] ++ t
        ∧ (t.map (fun a => a.url)).Nodup
        ∧ ∀ b ∈ t, b.url ∉ (diversePass articles k [] []).map (fun a => a.url)) := by
  constructor
  · intro hk
    have hlen : (diversePass articles k [] []).length = k := by
      apply diversePass_length articles k [] []
      · simp
      · rw [numNew_card articles []]
        simpa using hk
    have hsel : selectDiverseArticles articles k = diversePass articles k [] [] := by
      simp [selectDiverseArticles, hlen]
    have hh := diversePass_nodup articles k [] [] (by simp) (by simp)
    refine ⟨by rw [hsel]; exact hlen, by rw [hsel]; exact hh.1, ?_⟩
    intro b hb
    rw [hsel] at hb
    rcases hh.2 b hb with h' | h'
    · simp at h'
    · exact h'
  · unfold selectDiverseArticles
    by_cases hlt : (diversePass articles k [] []).length < k
    · simp only [hlt, if_true]
      exact fillPass_decomp articles k (diversePass articles k [] [])
    · simp only [hlt, if_false]
      exact ⟨[], by simp, by simp, by simp⟩

/-- Witness articles for C7: three articles over two distinct sources. -/
def diverseProbe : List Article :=
  [{ title := "t1", url := "u1", source := "A" },
   { title := "t2", url := "u2", source := "B" },
   { title := "t3", url := "u3", source := "A" }]

/-- Witness for C7 at a concrete input with two distinct sources. -/
theorem selectDiverse_guarantees_witness :
    (selectDiverseArticles diverseProbe 2).length = 2 :=
  ((selectDiverse_guarantees diverseProbe 2).1 (by decide)).1

/-! ## C8 — determinism and clock dependence of ranking -/

/-- The freshness bonus as a function of the band alone. -/
def bandBonus : Nat → Nat
  | 0 => 20
  | 1 => 15
  | 2 => 10
  | _ => 0

theorem freshnessBonus_eq_band (now pub : Int) :
    freshnessBonus now pub = bandBonus (freshBand now pub) := by
  unfold freshnessBonus freshBand
  split_ifs <;> rfl

theorem mapCongrOn {α β : Type} (l : List α) (f g : α → β)
    (h : ∀ a ∈ l, f a = g a) : l.map f = l.map g := by
  induction l with
  | nil => rfl
  | cons a r ih =>
    simp only [List.map_cons]
    rw [h a (List.mem_cons_self _ _), ih (fun x hx => h x (List.mem_cons_of_mem _ hx))]

theorem calcRelevanceIn_band (order : List (String × Category)) (a : Article)
    (an : ChannelAnalysis) (cat : String) (n1 n2 : Int)
    (h : freshBand n1 a.publishedAt = freshBand n2 a.publishedAt) :
    CalculatePreciseRelevanceIn order a an cat n1
      = CalculatePreciseRelevanceIn order a an cat n2 := by
  have hf : freshnessBonus n1 a.publishedAt = freshnessBonus n2 a.publishedAt := by
    rw [freshnessBonus_eq_band, freshnessBonus_eq_band, h]
  unfold CalculatePreciseRelevanceIn
  cases han : an.gptAnalysis with
  | none => rfl
  | some g => rw [hf]

theorem findRelevantCoreIn_band (order : List (String × Category))
    (articles : List Article) (an : ChannelAnalysis) (m : Nat) (n1 n2 : Int)
    (h : ∀ a ∈ articles, freshBand n1 a.publishedAt = freshBand n2 a.publishedAt) :
    findRelevantCoreIn order articles an m n1
      = findRelevantCoreIn order articles an m n2 := by
  unfold findRelevantCoreIn
  by_cases he : articles.isEmpty
  · rw [if_pos he, if_pos he]
  · rw [if_neg he, if_neg he]
    have hmap : articles.map
        (fun a => { a with relevance :=
          CalculatePreciseRelevanceIn order a an (determineChannelCategoryIn order an) n1 })
        = articles.map
        (fun a => { a with relevance :=
          CalculatePreciseRelevanceIn order a an (determineChannelCategoryIn order an) n2 }) := by
      apply mapCongrOn
      intro a ha
      rw [calcRelevanceIn_band order a an _ n1 n2 (h a ha)]
    simp only [hmap]

set_option maxRecDepth 10000

/-- Probe article for the clock-dependence counterexample: two of the probe
analysis' keywords occur in the title, no category or main-topic match,
published at Unix second 0. -/
def freshProbe : Article :=
  { title := "qqq www event", url := "u8", source := "X", publishedAt := 0 }

/-- Probe analysis: main topic absent from the probe article, one keyword
fixing the channel category away from the article's. -/
def freshProbeAnalysis : ChannelAnalysis :=
  { gptAnalysis := some { mainTopic := "zzz", keywords := ["стартап", "qqq", "www"] } }

/-- C8 counterexample: the same article list, analysis and limit produce
different output at two different clock readings (the article scores 0.50 one
hour after publication and 0.30 a hundred hours later, crossing the 0.4
backfill threshold); moreover the call rewrites the caller's slice (the
relevance field and order), so the inputs are mutated. -/
theorem findRelevant_reads_clock :
    FindRelevantArticles [freshProbe] freshProbeAnalysis 1 3600
      ≠ FindRelevantArticles [freshProbe] freshProbeAnalysis 1 360000
    ∧ (findRelevantCore [freshProbe] freshProbeAnalysis 1 3600).1 ≠ [freshProbe] := by
  refine ⟨by decide, by decide⟩

/-- Tie-probe article for the order-sensitivity half of the amended C8: its
title matches exactly one keyword of `IT и технологии` (`алгоритм`) and one
of `Гаджеты и техника` (`робот`), so the two categories tie and the one
encountered first in the map iteration wins. -/
def tieProbe : Article :=
  { title := "робот алгоритм", url := "u10", source := "X", publishedAt := 0 }

/-- Tie-probe analysis: its keywords give `IT и технологии` the unique best
channel-category score under every iteration order, so only the article's
detected category is order-sensitive. -/
def tieProbeAnalysis : ChannelAnalysis :=
  { gptAnalysis := some { mainTopic := "zzz", keywords := ["код", "алгоритм"] } }

/-- C8 amended: with the category-table iteration order held fixed, ranking
is determined by its arguments and each article's freshness band — two calls
at times giving every article the same band yield identical output and an
identical post-call slice state; but the output genuinely depends on that
iteration order, which the Go runtime randomizes per call with first-wins
ties: a tie input yields different results under the textual and the
reversed order, so call-to-call determinism fails on tie inputs even at one
instant. -/
theorem findRelevant_determined_by_bands_and_order :
    (∀ (order : List (String × Category)) (articles : List Article)
        (an : ChannelAnalysis) (m : Nat) (now1 now2 : Int),
      (∀ a ∈ articles, freshBand now1 a.publishedAt = freshBand now2 a.publishedAt) →
        FindRelevantArticlesIn order articles an m now1
          = FindRelevantArticlesIn order articles an m now2
        ∧ findRelevantCoreIn order articles an m now1
          = findRelevantCoreIn order articles an m now2)
    ∧ FindRelevantArticlesIn categoriesList [tieProbe] tieProbeAnalysis 1 1000000
        ≠ FindRelevantArticlesIn categoriesList.reverse [tieProbe] tieProbeAnalysis
            1 1000000 := by
  constructor
  · intro order articles an m now1 now2 h
    have hc := findRelevantCoreIn_band order articles an m now1 now2 h
    exact ⟨by unfold FindRelevantArticlesIn; rw [hc], hc⟩
  · decide

/-- Witness for the amended C8: two clock readings in the same band give the
same output under the fixed textual iteration order. -/
theorem findRelevant_determined_by_bands_and_order_witness :
    FindRelevantArticlesIn categoriesList [freshProbe] freshProbeAnalysis 1 0
      = FindRelevantArticlesIn categoriesList [freshProbe] freshProbeAnalysis 1 3600 :=
  (findRelevant_determined_by_bands_and_order.1 categoriesList [freshProbe]
    freshProbeAnalysis 1 0 3600 (by decide)).1

/-! ## C9 — keyword-only ranking variant -/

/-- Probe article for C9: it contains the second keyword only. -/
def keywordProbe : Article :=
  { title := "aa xx", url := "u9", source := "S", publishedAt := 0 }

/-- C9 counterexample: with keywords `"стартап aa"`, the keyword variant
(which sets the main topic to the whole keyword string) returns no article at
a stale clock reading, while the claim's profile with an empty main topic
returns one — Go `strings.Contains(text, "")` is always true, so an empty
main topic earns its bonus unconditionally. -/
theorem keywordVariant_ne_empty_profile :
    FindRelevantArticlesForKeywords [keywordProbe] "стартап aa" 1 1000000
      ≠ FindRelevantArticles [keywordProbe]
          (specKeywordOnlyAnalysis "стартап aa") 1 1000000 := by
  decide

/-- C9 amended: the keyword variant agrees with the full profile path for
the analysis it actually builds — main topic set to the whole keyword
string, keyword list its whitespace-split fields, subtopics and content
angle empty. -/
theorem keywordVariant_eq_builtProfile (articles : List Article) (kw : String)
    (m : Nat) (now : Int) :
    FindRelevantArticlesForKeywords articles kw m now
      = FindRelevantArticles articles
          { gptAnalysis := some { mainTopic := kw, subtopics := [],
                                  keywords := goFields kw, contentAngle := "" } }
          m now := rfl

/-! ## Validation and the candidate loop (`internal/bot/bot.go`) -/

/-- The fixed refusal-phrase list of `isRejectedPost`. -/
def rejectionPhrases : List String :=
  ["не могу обсуждать", "не могу написать", "отказываюсь", "не буду",
   "это не в моей компетенции", "давайте поговорим", "не могу помочь"]

/-- `isRejectedPost`: case-insensitive substring match of any refusal phrase
against the generated post. -/
def isRejectedPost (post : String) : Bool :=
  let postLower := goToLower post
  rejectionPhrases.any (fun phrase => goContains postLower (goToLower phrase))

/-- The acceptance condition of the candidate loop:
`!isRejectedPost(post) && len(strings.TrimSpace(post)) >= 100`. -/
def postAccepted (post : String) : Bool :=
  !isRejectedPost post && decide (100 ≤ goLen (goTrimSpace post))

/-- `formatPostForChannel`: trimmed post plus a source attribution line. -/
def formatPostForChannel (post : String) (article : Article) : String :=
  goTrimSpace post ++ "\n\n📰 [Новость](" ++ article.url ++ ") взята с *"
    ++ article.source ++ "*"

/-- Result of the candidate loop: the returned post and article, plus the
trace of candidates for which the generator collaborator was invoked. -/
structure GenTry where
  post : String
  article : Article
  attempts : List Article

/-- The Go zero value `news.Article{}` returned on exhaustion. -/
def emptyArticle : Article := {}

/-- The candidate loop of `tryGeneratePost`: call the generator on each
article in ranked order; a generator error or a rejected/short post advances
to the next candidate; the first accepted post is formatted and returned. -/
def tryLoop (articles : List Article) (gen : Article → Except Unit String) : GenTry :=
  match articles with
  | [] => { post := "", article := emptyArticle, attempts := [] }
  | a :: rest =>
    match gen a with
    | .error _ =>
      let r := tryLoop rest gen
      { r with attempts := a :: r.attempts }
    | .ok post =>
      if postAccepted post then
        { post := formatPostForChannel post a, article := a, attempts := [a] }
      else
        let r := tryLoop rest gen
        { r with attempts := a :: r.attempts }

/-- `tryGeneratePost`: the analysis is converted to the AI client's request
shape and passed with each article to `gptClient.GeneratePost`, modelled by
the oracle `gen`; the empty-input early return coincides with the loop's base
case.  The function performs no storage (ledger) access — it is a function of
the article list and the generator alone. -/
def tryGeneratePost (analysis : ChannelAnalysis) (articles : List Article)
    (gen : Article → Except Unit String) : GenTry :=
  tryLoop articles gen

/-- Whether a generation outcome is unusable for the loop's hypothesis in C2:
an error, or a text matching a refusal phrase. -/
def genRejected : Except Unit String → Bool
  | .error _ => true
  | .ok s => isRejectedPost s

/-! ## C3 — the validation predicate -/

/-- C3 counterexample: a non-empty output containing no refusal phrase is
nevertheless rejected, because the code also requires at least 100 bytes
after trimming. -/
theorem shortPost_rejected :
    isRejectedPost "Good short post" = false
    ∧ goTrimSpace "Good short post" ≠ ""
    ∧ postAccepted "Good short post" = false := by
  refine ⟨by decide, by decide, by decide⟩

/-- C3 amended: an output is accepted exactly when no refusal phrase of the
fixed list occurs (case-insensitively) in it and its whitespace-trimmed UTF-8
length is at least 100 bytes; in particular every empty or whitespace-only
output is rejected. -/
theorem postAccepted_iff (post : String) :
    (postAccepted post = true ↔
      ((∀ ph ∈ rejectionPhrases, goContains (goToLower post) (goToLower ph) = false)
        ∧ 100 ≤ goLen (goTrimSpace post)))
    ∧ (goTrimSpace post = "" → postAccepted post = false) := by
  constructor
  · unfold postAccepted isRejectedPost
    simp only [Bool.and_eq_true, Bool.not_eq_true', decide_eq_true_eq,
      List.any_eq_false]
    constructor
    · rintro ⟨h1, h2⟩
      exact ⟨fun ph hph => by simpa using h1 ph hph, h2⟩
    · rintro ⟨h1, h2⟩
      exact ⟨fun ph hph => by simpa using h1 ph hph, h2⟩
  · intro h
    unfold postAccepted
    rw [h]
    simp [goLen]

/-- Witness for the amended C3: the empty output is rejected. -/
theorem postAccepted_iff_witness : postAccepted "" = false :=
  (postAccepted_iff "").2 (by decide)

/-! ## C2 — retry to exhaustion -/

theorem tryLoop_exhausts (gen : Article → Except Unit String) :
    ∀ articles : List Article, (∀ a ∈ articles, genRejected (gen a) = true) →
      (tryLoop articles gen).post = ""
      ∧ (tryLoop articles gen).attempts = articles
      ∧ (tryLoop articles gen).article = emptyArticle := by
  intro articles
  induction articles with
  | nil => intro _; exact ⟨rfl, rfl, rfl⟩
  | cons a rest ih =>
    intro h
    have ha := h a (List.mem_cons_self _ _)
    obtain ⟨h1, h2, h3⟩ := ih (fun x hx => h x (List.mem_cons_of_mem _ hx))
    cases hg : gen a with
    | error e =>
      simp only [tryLoop, hg]
      exact ⟨h1, by rw [h2], h3⟩
    | ok post =>
      rw [hg] at ha
      have hrej : isRejectedPost post = true := by simpa [genRejected] using ha
      have hacc : ¬ postAccepted post = true := by
        unfold postAccepted
        rw [hrej]
        simp
      simp only [tryLoop, hg]
      rw [if_neg hacc]
      exact ⟨h1, by rw [h2], h3⟩

/-- C2: when every candidate's generation outcome is a generator error or a
refusal-matching text, the candidate loop invokes the generator exactly once
per ranked article, in ranked order, and returns the empty post with the zero
article (a failure); by its definition the loop performs no ledger access at
all. -/
theorem tryGenerate_exhausts (analysis : ChannelAnalysis) (articles : List Article)
    (gen : Article → Except Unit String)
    (h : ∀ a ∈ articles, genRejected (gen a) = true) :
    (tryGeneratePost analysis articles gen).post = ""
    ∧ (tryGeneratePost analysis articles gen).attempts = articles
    ∧ (tryGeneratePost analysis articles gen).article = emptyArticle := by
  unfold tryGeneratePost
  exact tryLoop_exhausts gen articles h

/-- Witness candidates for C2: one refusal text, one generator error. -/
def rejProbeArticles : List Article :=
  [{ title := "a1", url := "v1", source := "P" },
   { title := "a2", url := "v2", source := "Q" }]

/-- Witness generator for C2. -/
def rejProbeGen : Article → Except Unit String :=
  fun a => if a.url == "v1" then Except.ok "к сожалению, не буду" else Except.error ()

/-- Witness for C2: both candidates are tried, in order. -/
theorem tryGenerate_exhausts_witness :
    (tryGeneratePost { gptAnalysis := none } rejProbeArticles rejProbeGen).attempts
      = rejProbeArticles :=
  (tryGenerate_exhausts { gptAnalysis := none } rejProbeArticles rejProbeGen
    (by decide)).2.1

/-! ## Orchestration (`handleGenerate`, first snapshot of `bot.go`) -/

/-- One quota-ledger call made by the handler. -/
inductive LedgerOp where
  | useGen
  | addGen (count : Int)
deriving DecidableEq

/-- Terminal outcome of one `handleGenerate` run. -/
inductive RunOutcome where
  | quotaExhausted
  | rateLimited
  | systemError
  | sendFailed
  | fetchError
  | noArticles
  | noRelevant
  | genFailed
  | success (post : String) (article : Article)
deriving DecidableEq

/-- Result of one `handleGenerate` run: final storage state, outcome, and
the trace of ledger calls in order. -/
structure RunResult where
  state : StorageState
  outcome : RunOutcome
  ledger : List LedgerOp

/-- The collaborator outcomes one run observes: the anti-spam countdown, the
transport result of the processing message, the message text, the channel
analyzer result, the aggregator's `FetchAllArticles()` result, the clock, and
the generator. -/
structure GenEnv where
  timeLeft : Nat
  sendProcessingOk : Bool
  msgText : String
  analyzeChannel : Except Unit ChannelAnalysis
  fetchResult : Except Unit (List Article)
  now : Int
  gen : Article → Except Unit String

/-- `createAnalysisFromKeywords` (first snapshot). -/
def createAnalysisFromKeywords (keywords : String) : ChannelAnalysis :=
  { gptAnalysis := some
      { mainTopic := keywords, subtopics := [keywords],
        keywords := goFields keywords,
        contentAngle := "информационный пост с практической пользой" } }

/-- The analysis a run uses: the channel analyzer's result for `@username`
inputs (with keyword fallback on error), a keyword analysis otherwise. -/
def chosenAnalysis (env : GenEnv) : ChannelAnalysis :=
  let input := goTrimSpace env.msgText
  if goHasStart input "@" then
    match env.analyzeChannel with
    | .ok a => a
    | .error _ => createAnalysisFromKeywords (goDropStart input "@")
  else createAnalysisFromKeywords input

/-- The stages after a successful fetch: empty-batch check, ranking with
limit 3, candidate loop; each failure refunds the debit with
`AddGenerations(1)` against the post-debit state `st1`. -/
def pipelineAfterFetch (env : GenEnv) (st1 : StorageState) (chatID : Int)
    (articles : List Article) : RunResult :=
  if articles.isEmpty then
    { state := AddGenerations st1 chatID 1,
      outcome := .noArticles, ledger := [.useGen, .addGen 1] }
  else if (FindRelevantArticles articles (chosenAnalysis env) 3 env.now).isEmpty then
    { state := AddGenerations st1 chatID 1,
      outcome := .noRelevant, ledger := [.useGen, .addGen 1] }
  else if (tryGeneratePost (chosenAnalysis env)
      (FindRelevantArticles articles (chosenAnalysis env) 3 env.now) env.gen).post
      = "" then
    { state := AddGenerations st1 chatID 1,
      outcome := .genFailed, ledger := [.useGen, .addGen 1] }
  else
    { state := st1,
      outcome := .success
        (tryGeneratePost (chosenAnalysis env)
          (FindRelevantArticles articles (chosenAnalysis env) 3 env.now) env.gen).post
        (tryGeneratePost (chosenAnalysis env)
          (FindRelevantArticles articles (chosenAnalysis env) 3 env.now) env.gen).article,
      ledger := [.useGen] }

/-- `handleGenerate` (first snapshot): quota precondition, anti-spam check,
up-front `UseGeneration` debit, processing-message send, fetch, ranking (with
limit 3), candidate loop, and a compensating `AddGenerations(1)` on each
pipeline failure after the debit (but not on a failed processing-message
send). -/
def handleGenerate (env : GenEnv) (st : StorageState) (chatID : Int) : RunResult :=
  if (GetUser st chatID).availableGenerations ≤ 0 then
    { state := st, outcome := .quotaExhausted, ledger := [] }
  else if 0 < env.timeLeft then
    { state := st, outcome := .rateLimited, ledger := [] }
  else if (UseGeneration st chatID).1 = false then
    { state := (UseGeneration st chatID).2, outcome := .systemError,
      ledger := [.useGen] }
  else if env.sendProcessingOk = false then
    { state := (UseGeneration st chatID).2, outcome := .sendFailed,
      ledger := [.useGen] }
  else
    match env.fetchResult with
    | .error _ =>
      { state := AddGenerations (UseGeneration st chatID).2 chatID 1,
        outcome := .fetchError, ledger := [.useGen, .addGen 1] }
    | .ok articles =>
      pipelineAfterFetch env (UseGeneration st chatID).2 chatID articles

/-- Number of `UseGeneration` calls in a ledger trace. -/
def countUseGen (l : List LedgerOp) : Nat :=
  (l.filter (fun op => op == LedgerOp.useGen)).length

/-- The pipeline-failure outcomes after which the code refunds the debit
(the ones enumerated by the claim). -/
def isRefundedFailure : RunOutcome → Bool
  | .fetchError => true
  | .noArticles => true
  | .noRelevant => true
  | .genFailed => true
  | _ => false

/-- The quota obligations of one run: at most one debit, balance restored on
every refunded pipeline failure, and a net decrement of exactly one on
success. -/
def QuotaOk (st₀ : StorageState) (chatID : Int) (r : RunResult) : Prop :=
  countUseGen r.ledger ≤ 1
  ∧ (isRefundedFailure r.outcome = true →
      balanceOf r.state chatID = balanceOf st₀ chatID)
  ∧ (∀ p a, r.outcome = RunOutcome.success p a →
      balanceOf r.state chatID = balanceOf st₀ chatID - 1)

/-! ## C1 — quota handling of one run -/

/-- C1 amended: every run debits at most once; a run ending in one of the
pipeline failures (fetch error, no articles, no relevant articles, all
candidates rejected) leaves the balance exactly as before (the up-front debit
is compensated by `AddGenerations(1)`); a successful run leaves the balance
lower by exactly one. -/
theorem pipelineAfterFetch_quota (env : GenEnv) (st0 st1 : StorageState)
    (chatID : Int) (articles : List Article)
    (hb : balanceOf st1 chatID = balanceOf st0 chatID - 1)
    (hr : balanceOf (AddGenerations st1 chatID 1) chatID = balanceOf st0 chatID) :
    QuotaOk st0 chatID (pipelineAfterFetch env st1 chatID articles) := by
  unfold pipelineAfterFetch
  by_cases h3 : articles.isEmpty
  · rw [if_pos h3]
    exact ⟨show countUseGen [LedgerOp.useGen, LedgerOp.addGen 1] ≤ 1 by decide,
           fun _ => hr, fun p a h => RunOutcome.noConfusion h⟩
  · rw [if_neg h3]
    by_cases h4 : (FindRelevantArticles articles (chosenAnalysis env) 3 env.now).isEmpty
    · rw [if_pos h4]
      exact ⟨show countUseGen [LedgerOp.useGen, LedgerOp.addGen 1] ≤ 1 by decide,
             fun _ => hr, fun p a h => RunOutcome.noConfusion h⟩
    · rw [if_neg h4]
      by_cases h5 : (tryGeneratePost (chosenAnalysis env)
          (FindRelevantArticles articles (chosenAnalysis env) 3 env.now)
          env.gen).post = ""
      · rw [if_pos h5]
        exact ⟨show countUseGen [LedgerOp.useGen, LedgerOp.addGen 1] ≤ 1 by decide,
               fun _ => hr, fun p a h => RunOutcome.noConfusion h⟩
      · rw [if_neg h5]
        refine ⟨show countUseGen [LedgerOp.useGen] ≤ 1 by decide, ?_, ?_⟩
        · intro h
          simp [isRefundedFailure] at h
        · intro p a _
          exact hb

theorem handleGenerate_quota (env : GenEnv) (st : StorageState) (chatID : Int) :
    QuotaOk st chatID (handleGenerate env st chatID) := by
  unfold handleGenerate
  by_cases h0 : (GetUser st chatID).availableGenerations ≤ 0
  · rw [if_pos h0]
    exact ⟨show countUseGen ([] : List LedgerOp) ≤ 1 by decide,
           by intro h; simp [isRefundedFailure] at h,
           fun p a h => RunOutcome.noConfusion h⟩
  · rw [if_neg h0]
    have hpos : 0 < balanceOf st chatID := by
      unfold balanceOf
      omega
    by_cases h1 : 0 < env.timeLeft
    · rw [if_pos h1]
      exact ⟨show countUseGen ([] : List LedgerOp) ≤ 1 by decide,
             by intro h; simp [isRefundedFailure] at h,
             fun p a h => RunOutcome.noConfusion h⟩
    · rw [if_neg h1]
      have hug := useGen_pos st chatID hpos
      rw [if_neg (by simp [hug.1] : ¬ ((UseGeneration st chatID).1 = false))]
      by_cases h2 : env.sendProcessingOk = false
      · rw [if_pos h2]
        exact ⟨show countUseGen [LedgerOp.useGen] ≤ 1 by decide,
               by intro h; simp [isRefundedFailure] at h,
               fun p a h => RunOutcome.noConfusion h⟩
      · rw [if_neg h2]
        have hrefund :
            balanceOf (AddGenerations (UseGeneration st chatID).2 chatID 1) chatID
              = balanceOf st chatID := by
          rw [(addGen_self _ _ _).1, hug.2.1]
          omega
        cases hf : env.fetchResult with
        | error e =>
          exact ⟨show countUseGen [LedgerOp.useGen, LedgerOp.addGen 1] ≤ 1 by decide,
                 fun _ => hrefund, fun p a h => RunOutcome.noConfusion h⟩
        | ok articles =>
          exact pipelineAfterFetch_quota env st (UseGeneration st chatID).2 chatID
            articles hug.2.1 hrefund

/-- Environment of the C1 counterexample: the aggregator call fails. -/
def fetchFailEnv : GenEnv :=
  { timeLeft := 0, sendProcessingOk := true, msgText := "qqq",
    analyzeChannel := Except.error (), fetchResult := Except.error (),
    now := 0, gen := fun _ => Except.error () }

/-- C1 counterexample: a run that ends in a fetch-error failure has
nevertheless invoked the debit (`UseGeneration`) — the code debits up front
and compensates with `AddGenerations(1)`, rather than debiting only at the
committed transition (the net balance is restored, as the trace shows). -/
theorem handleGenerate_debits_before_commit :
    (handleGenerate fetchFailEnv ([] : StorageState) 7).outcome = RunOutcome.fetchError
    ∧ LedgerOp.useGen ∈ (handleGenerate fetchFailEnv ([] : StorageState) 7).ledger
    ∧ (handleGenerate fetchFailEnv ([] : StorageState) 7).ledger
        = [LedgerOp.useGen, LedgerOp.addGen 1]
    ∧ balanceOf (handleGenerate fetchFailEnv ([] : StorageState) 7).state 7
        = balanceOf ([] : StorageState) 7 := by
  refine ⟨by decide, by decide, by decide, by decide⟩

/-- Witness for the amended C1: at the concrete fetch-error run the balance
is restored. -/
theorem handleGenerate_quota_witness :
    balanceOf (handleGenerate fetchFailEnv ([] : StorageState) 7).state 7
      = balanceOf ([] : StorageState) 7 :=
  (handleGenerate_quota fetchFailEnv ([] : StorageState) 7).2.1 (by decide)
